import Mathlib

/-!
Shallow embedding of the HaxWall address-classification and ban-lifecycle
engine (src/HaxWall/ban.h).

Modelling choices:
* `time_t` values are `Int` (seconds); the global `now` that the C++ code
  refreshes at the top of `ReceivePacket` / `ClearOldEntries` is passed as an
  explicit parameter to every operation.
* `std::unordered_map` becomes an association list (`List (Nat × α)`),
  `std::unordered_set` becomes `List Nat`; insertion order is irrelevant to
  every property proved here.
* The raw function pointers `ban_function` / `unban_function` are modelled by
  two registration flags plus an emitted event trace: the C++ code only ever
  tests the pointers against NULL before calling them, so a Boolean flag and a
  `banCb` / `unbanCb` event capture their whole observable behaviour.
* The `times` array of `AddressStatistics` is a function `Nat → Int`; the
  uninitialized stack contents that the C++ constructor starts from are
  modelled as the constant `UNINIT` (the guard `packet_count > MAX_PACKETS`
  in `HitLimit` keeps uninitialized slots from ever influencing a result).
-/

def MAX_PORTS : Nat := 3
def TIMEOUT : Int := 60
def PURGE_INTERVAL : Int := 30
def MAX_PACKETS : Nat := 80
def MAX_PACKET_FRAME : Int := 1
def BAN_DURATION_MULTIPORT : Int := 60
def BAN_DURATION_FLOOD : Int := 60
def BAN_DURATION_BLACKLIST : Int := 3600

/-! Association-list primitives standing in for `std::unordered_map`. -/

def lookupKey {α : Type} : List (Nat × α) → Nat → Option α
  | [], _ => none
  | (k, v) :: rest, a => if k = a then some v else lookupKey rest a

def containsKey {α : Type} (l : List (Nat × α)) (a : Nat) : Bool :=
  (lookupKey l a).isSome

def eraseKey {α : Type} : List (Nat × α) → Nat → List (Nat × α)
  | [], _ => []
  | (k, v) :: rest, a => if k = a then rest else (k, v) :: eraseKey rest a

/-- `operator[]` followed by assignment: update the value at the key when it
is present, append a fresh binding otherwise. -/
def setKey {α : Type} : List (Nat × α) → Nat → α → List (Nat × α)
  | [], a, v => [(a, v)]
  | (k, w) :: rest, a, v => if k = a then (a, v) :: rest else (k, w) :: setKey rest a v

/-! Per-address statistics (struct `AddressStatistics`, ban.h lines 27-89). -/

/-- Model value for the uninitialized `times` stack array the C++ constructor
starts from.  `HitLimit`'s `packet_count > MAX_PACKETS` guard means the value
of an unwritten slot never influences any result proved below. -/
def UNINIT : Int := 0

structure AddressStatistics where
  times : Nat → Int
  packet_count : Nat
  last_time : Nat
  ports : List (Nat × Int)

/-- `AddressStatistics::RemoveOldPorts`: erase the ports whose last-seen time
is more than TIMEOUT seconds old. -/
def AddressStatistics.RemoveOldPorts (s : AddressStatistics) (now : Int) :
    AddressStatistics :=
  { s with ports := s.ports.filter (fun p => ! decide (now - p.2 > TIMEOUT)) }

/-- `AddressStatistics::Reset`. -/
def AddressStatistics.Reset (s : AddressStatistics) (port : Nat) (now : Int) :
    AddressStatistics :=
  { packet_count := 1
    ports := [(port, now)]
    last_time := 0
    times := fun i => if i = 0 then now else s.times i }

/-- `AddressStatistics::TimedOut` (the engine always passes the default
argument TIMEOUT; `IsActive` does the same). -/
def AddressStatistics.TimedOut (s : AddressStatistics) (now timeout : Int) : Bool :=
  decide (now - s.times s.last_time > timeout)

/-- `AddressStatistics::CountPacket`: advance the cursor modulo MAX_PACKETS
and record the arrival time. -/
def AddressStatistics.CountPacket (s : AddressStatistics) (now : Int) :
    AddressStatistics :=
  let lt := if s.last_time + 1 ≥ MAX_PACKETS then 0 else s.last_time + 1
  { s with
    packet_count := s.packet_count + 1
    last_time := lt
    times := fun i => if i = lt then now else s.times i }

/-- `AddressStatistics::HitLimit`: the ring has wrapped and the span from the
oldest to the newest recorded arrival is strictly below MAX_PACKET_FRAME. -/
def AddressStatistics.HitLimit (s : AddressStatistics) : Bool :=
  let first_time := if s.last_time + 1 ≥ MAX_PACKETS then 0 else s.last_time + 1
  decide (s.packet_count > MAX_PACKETS) &&
    decide (s.times s.last_time - s.times first_time < MAX_PACKET_FRAME)

/-- The constructor `AddressStatistics(uint16_t port)`: `Reset` applied to the
uninitialized stack object. -/
def AddressStatistics.make (port : Nat) (now : Int) : AddressStatistics :=
  AddressStatistics.Reset
    { times := fun _ => UNINIT, packet_count := 0, last_time := 0, ports := [] }
    port now

/-! Ban records and observable engine events. -/

inductive BanStatus where
  | Unbanned
  | Banned
  | Ban
  | Unban
deriving DecidableEq

structure BanInfo where
  expiry : Int
deriving DecidableEq

/-- The constructor `BanInfo(time_t duration)`. -/
def BanInfo.make (duration now : Int) : BanInfo :=
  ⟨now + duration⟩

/-- `BanInfo::TimedOut`: `difftime(now, expiry) >= 0`. -/
def BanInfo.TimedOut (b : BanInfo) (now : Int) : Bool :=
  decide (now - b.expiry ≥ 0)

/-- Audit-log tags of the transitions the engine logs. -/
inductive Tag where
  | FirstPacket
  | Reappearance
  | Multiport
  | Flood
  | BlacklistHit
  | WhitelistAdd
  | UnbanTag
deriving DecidableEq

/-- Observable side effects of one engine operation, in emission order. -/
inductive Event where
  | log (tag : Tag) (addr : Nat)
  | banCb (addr : Nat)
  | unbanCb (addr : Nat)
deriving DecidableEq

def Event.addr : Event → Nat
  | .log _ a => a
  | .banCb a => a
  | .unbanCb a => a

/-! The firewall engine (class `AttackFirewall`). -/

structure AttackFirewall where
  table : List (Nat × AddressStatistics)
  bans : List (Nat × BanInfo)
  whitelist : List Nat
  last_purge : Int
  ban_registered : Bool
  unban_registered : Bool
  blacklist : Option (Nat → Bool)
  exceptions : Option (Nat → Bool)

/-- `AttackFirewall::IsSpecialAddress`, byte for byte from the switch in
ban.h lines 128-185 (including the `b2 <= 32` quirk in the 172 case). -/
def IsSpecialAddress (addr : Nat) : Bool :=
  let b1 := (addr >>> 24) % 256
  let b2 := (addr >>> 16) % 256
  let b3 := (addr >>> 8) % 256
  if b1 = 0 ∨ b1 = 10 ∨ b1 = 127 then true
  else if b1 = 100 ∧ (64 ≤ b2 ∧ b2 ≤ 127) then true
  else if b1 = 169 ∧ b2 = 254 then true
  else if b1 = 172 ∧ (16 ≤ b2 ∧ b2 ≤ 32) then true
  else if b1 = 192 ∧ (b2 = 0 ∧ (b3 = 0 ∨ b3 = 2) ∨ b2 = 88 ∧ b3 = 99 ∨ b2 = 168) then true
  else if b1 = 198 ∧ (18 ≤ b2 ∧ b2 ≤ 19 ∨ b2 = 51 ∧ b3 = 100) then true
  else if b1 = 203 ∧ (b2 = 0 ∧ b3 = 113) then true
  else decide (b1 ≥ 224)

/-- `CIDRMatcher *` plus the `matcher && matcher->Contains(addr)` test: a
NULL pointer is `none` and never matches. -/
def matcherContains : Option (Nat → Bool) → Nat → Bool
  | none, _ => false
  | some m, a => m a

/-- Result of one `ReceivePacket` call: return value, post state, events. -/
structure StepResult where
  status : BanStatus
  fw : AttackFirewall
  events : List Event

/-- The `if (ban_function != NULL) ban_function(addr);` idiom. -/
def emitBan (fw : AttackFirewall) (addr : Nat) : List Event :=
  if fw.ban_registered then [Event.banCb addr] else []

def emitUnban (fw : AttackFirewall) (addr : Nat) : List Event :=
  if fw.unban_registered then [Event.unbanCb addr] else []

/-- `AttackFirewall::ReceivePacket` (ban.h lines 239-327), with the global
`now` passed explicitly.  Mutation of the found `table` entry is threaded
functionally and written back (or the entry erased) exactly where the C++
code mutates in place. -/
def AttackFirewall.ReceivePacket (fw : AttackFirewall) (addr port : Nat)
    (now : Int) : StepResult :=
  if IsSpecialAddress addr || fw.whitelist.contains addr then
    ⟨BanStatus.Unbanned, fw, []⟩
  else
    match lookupKey fw.bans addr with
    | some ban =>
      if ban.TimedOut now then
        ⟨BanStatus.Unban, { fw with bans := eraseKey fw.bans addr },
          Event.log Tag.UnbanTag addr :: emitUnban fw addr⟩
      else
        ⟨BanStatus.Banned, fw, []⟩
    | none =>
      match lookupKey fw.table addr with
      | none =>
        if matcherContains fw.exceptions addr then
          -- whitelist.insert(addr): addr is not in the whitelist here (the
          -- exemption check at the top failed), so set insertion is a cons
          ⟨BanStatus.Unbanned, { fw with whitelist := addr :: fw.whitelist },
            [Event.log Tag.WhitelistAdd addr]⟩
        else if matcherContains fw.blacklist addr then
          ⟨BanStatus.Ban,
            { fw with bans := (addr, BanInfo.make BAN_DURATION_BLACKLIST now) :: fw.bans },
            emitBan fw addr ++ [Event.log Tag.BlacklistHit addr]⟩
        else
          ⟨BanStatus.Unbanned,
            { fw with table := (addr, AddressStatistics.make port now) :: fw.table },
            [Event.log Tag.FirstPacket addr]⟩
      | some st =>
        if st.TimedOut now TIMEOUT then
          ⟨BanStatus.Unbanned,
            { fw with table := setKey fw.table addr (st.Reset port now) },
            [Event.log Tag.Reappearance addr]⟩
        else
          let st1 := st.RemoveOldPorts now
          if st1.ports.length > MAX_PORTS then
            ⟨BanStatus.Ban,
              { fw with
                bans := (addr, BanInfo.make BAN_DURATION_MULTIPORT now) :: fw.bans,
                table := eraseKey fw.table addr },
              Event.log Tag.Multiport addr :: emitBan fw addr⟩
          else
            let st2 := { st1 with ports := setKey st1.ports port now }
            let st3 := st2.CountPacket now
            if st3.HitLimit then
              ⟨BanStatus.Ban,
                { fw with
                  bans := (addr, BanInfo.make BAN_DURATION_FLOOD now) :: fw.bans,
                  table := eraseKey fw.table addr },
                emitBan fw addr ++ [Event.log Tag.Flood addr]⟩
            else
              ⟨BanStatus.Unbanned, { fw with table := setKey fw.table addr st3 }, []⟩

/-- Events of the ban-walking loop in `ClearOldEntries`: for every entry one
`unban_cb` call (when registered), plus an `Unban` log line when the entry is
expired and removed. -/
def purgeBanEvents (reg : Bool) (now : Int) : List (Nat × BanInfo) → List Event
  | [] => []
  | (a, b) :: rest =>
    (if reg then [Event.unbanCb a] else []) ++
      (if b.TimedOut now then [Event.log Tag.UnbanTag a] else []) ++
      purgeBanEvents reg now rest

/-- `AttackFirewall::ClearOldEntries` (ban.h lines 329-366). -/
def AttackFirewall.ClearOldEntries (fw : AttackFirewall) (now : Int) :
    AttackFirewall × List Event :=
  if now - fw.last_purge ≤ PURGE_INTERVAL then (fw, [])
  else
    ({ fw with
        table := fw.table.filter (fun p => ! p.2.TimedOut now TIMEOUT)
        bans := fw.bans.filter (fun p => ! p.2.TimedOut now)
        last_purge := now },
      purgeBanEvents fw.unban_registered now fw.bans)

/-- `AttackFirewall::AddWhitelist` (set insertion). -/
def AttackFirewall.AddWhitelist (fw : AttackFirewall) (addr : Nat) : AttackFirewall :=
  { fw with
    whitelist := if fw.whitelist.contains addr then fw.whitelist else addr :: fw.whitelist }

/-- `AttackFirewall::SetBlacklist`. -/
def AttackFirewall.SetBlacklist (fw : AttackFirewall)
    (bl ex : Option (Nat → Bool)) : AttackFirewall :=
  { fw with blacklist := bl, exceptions := ex }

/-- The constructor `AttackFirewall(ban, unban)`: empty maps, no matchers,
`last_purge` seeded from the current time. -/
def mkFirewall (banReg unbanReg : Bool) (now : Int) : AttackFirewall :=
  { table := []
    bans := []
    whitelist := []
    last_purge := now
    ban_registered := banReg
    unban_registered := unbanReg
    blacklist := none
    exceptions := none }

/-! Drivers for sequences of engine operations. -/

/-- Run a list of `(addr, port, now)` packets; collect the statuses, the
final state and the concatenated event trace. -/
def runReceives (fw : AttackFirewall) :
    List (Nat × Nat × Int) → List BanStatus × AttackFirewall × List Event
  | [] => ([], fw, [])
  | (a, p, t) :: rest =>
    let r := fw.ReceivePacket a p t
    let rr := runReceives r.fw rest
    (r.status :: rr.1, rr.2.1, r.events ++ rr.2.2)

/-- One public engine operation. -/
inductive Op where
  | recv (addr port : Nat) (now : Int)
  | purge (now : Int)
  | addWl (addr : Nat)
  | setBl (bl ex : Option (Nat → Bool))

def applyOp (fw : AttackFirewall) : Op → Option BanStatus × AttackFirewall × List Event
  | .recv a p t => let r := fw.ReceivePacket a p t; (some r.status, r.fw, r.events)
  | .purge t => let r := fw.ClearOldEntries t; (none, r.1, r.2)
  | .addWl a => (none, fw.AddWhitelist a, [])
  | .setBl b e => (none, fw.SetBlacklist b e, [])

def runOps (fw : AttackFirewall) :
    List Op → List (Option BanStatus) × AttackFirewall × List Event
  | [] => ([], fw, [])
  | op :: rest =>
    let r := applyOp fw op
    let rr := runOps r.2.1 rest
    (r.1 :: rr.1, rr.2.1, r.2.2 ++ rr.2.2)

/-! Invariant predicates and derived notions used by the claims. -/

/-- Association-list well-formedness: pairwise distinct keys, as guaranteed
for `std::unordered_map` contents. -/
def NoDupKeys {α : Type} (l : List (Nat × α)) : Prop :=
  l.Pairwise (fun p q => p.1 ≠ q.1)

/-- Every tracked address keeps at most MAX_PORTS + 1 recorded ports. -/
def PortsBounded (fw : AttackFirewall) : Prop :=
  ∀ p ∈ fw.table, p.2.ports.length ≤ MAX_PORTS + 1

/-- Invariant I1: no address is both tracked and banned. -/
def TableBansDisjoint (fw : AttackFirewall) : Prop :=
  ∀ a, containsKey fw.table a = true → containsKey fw.bans a = false

/-- Invariant I2: no whitelisted address is banned. -/
def WhitelistBansDisjoint (fw : AttackFirewall) : Prop :=
  ∀ a, fw.whitelist.contains a = true → containsKey fw.bans a = false

/-- The engine's global state invariant. -/
def EngineInv (fw : AttackFirewall) : Prop :=
  NoDupKeys fw.table ∧ NoDupKeys fw.bans ∧ TableBansDisjoint fw ∧ WhitelistBansDisjoint fw

/-- The ring-buffer cursor stays inside the MAX_PACKETS-element array. -/
def CursorInBounds (s : AddressStatistics) : Prop :=
  s.last_time < MAX_PACKETS

/-- Replace only the two callback-registration flags of an engine state. -/
def setFlags (fw : AttackFirewall) (banReg unbanReg : Bool) : AttackFirewall :=
  { fw with ban_registered := banReg, unban_registered := unbanReg }

/-! Closed-form states of the single-source flood scenario: statistics after
n packets, all from one port at one time T, starting from a first sighting. -/

def floodStats (port : Nat) (T : Int) (n : Nat) : AddressStatistics :=
  { times := fun i => if i < n then T else UNINIT
    packet_count := n
    last_time := n - 1
    ports := [(port, T)] }

def floodFw (t0 : Int) (addr port : Nat) (T : Int) (n : Nat) : AttackFirewall :=
  { mkFirewall true true t0 with table := [(addr, floodStats port T n)] }

/-- Statistics right after the 81st same-second packet of the flood
scenario: the ring has wrapped once and holds MAX_PACKETS + 1 counted
arrivals. -/
def floodOverflowStats (port : Nat) (T : Int) : AddressStatistics :=
  { times := fun i => if i = 0 then T else (floodStats port T MAX_PACKETS).times i
    packet_count := MAX_PACKETS + 1
    last_time := 0
    ports := [(port, T)] }

/-! Concrete state refuting the claim that a full ring whose oldest-to-newest
span is exactly MAX_PACKET_FRAME triggers a flood ban: after one more packet
at time 10 the ring holds 81 packets and spans exactly 1 second. -/

def spanOneStats : AddressStatistics :=
  { times := fun i => if i = 1 then 9 else 10
    packet_count := 80
    last_time := 79
    ports := [(9000, 10)] }

def spanOneFw : AttackFirewall :=
  { table := [(0x01020304, spanOneStats)]
    bans := []
    whitelist := []
    last_purge := 0
    ban_registered := true
    unban_registered := true
    blacklist := none
    exceptions := none }

/-! Helper lemmas about the association-list primitives. -/

theorem lookupKey_mem {α : Type} {l : List (Nat × α)} {a : Nat} {v : α}
    (h : lookupKey l a = some v) : (a, v) ∈ l := by
  induction l with
  | nil => simp [lookupKey] at h
  | cons hd tl ih =>
    obtain ⟨k, w⟩ := hd
    simp only [lookupKey] at h
    split at h
    · rename_i hk
      cases h
      exact hk ▸ List.mem_cons_self _ _
    · exact List.mem_cons_of_mem _ (ih h)

theorem containsKey_iff {α : Type} {l : List (Nat × α)} {a : Nat} :
    containsKey l a = true ↔ ∃ v, (a, v) ∈ l := by
  induction l with
  | nil => simp [containsKey, lookupKey]
  | cons hd tl ih =>
    obtain ⟨k, w⟩ := hd
    simp only [containsKey, lookupKey]
    constructor
    · intro h
      split at h
      · rename_i hk
        exact ⟨w, hk ▸ List.mem_cons_self _ _⟩
      · obtain ⟨v, hv⟩ := ih.mp h
        exact ⟨v, List.mem_cons_of_mem _ hv⟩
    · rintro ⟨v, hv⟩
      rcases List.mem_cons.mp hv with h | h
      · rw [if_pos (by cases h; rfl)]
        rfl
      · split
        · rfl
        · exact ih.mpr ⟨v, h⟩

theorem containsKey_eq_false_iff {α : Type} {l : List (Nat × α)} {a : Nat} :
    containsKey l a = false ↔ ∀ v, (a, v) ∉ l := by
  rw [← Bool.not_eq_true, not_iff_comm, containsKey_iff]
  simp

theorem eraseKey_sublist {α : Type} (l : List (Nat × α)) (a : Nat) :
    (eraseKey l a).Sublist l := by
  induction l with
  | nil => simp [eraseKey]
  | cons hd tl ih =>
    obtain ⟨k, v⟩ := hd
    simp only [eraseKey]
    split
    · exact List.sublist_cons_self _ _
    · exact List.Sublist.cons₂ _ ih

theorem containsKey_of_eraseKey {α : Type} {l : List (Nat × α)} {k a : Nat}
    (h : containsKey (eraseKey l k) a = true) : containsKey l a = true := by
  obtain ⟨v, hv⟩ := containsKey_iff.mp h
  exact containsKey_iff.mpr ⟨v, List.Sublist.mem hv (eraseKey_sublist l k)⟩

theorem containsKey_filter {α : Type} {l : List (Nat × α)} {f : Nat × α → Bool}
    {a : Nat} (h : containsKey (l.filter f) a = true) : containsKey l a = true := by
  obtain ⟨v, hv⟩ := containsKey_iff.mp h
  exact containsKey_iff.mpr ⟨v, (List.mem_filter.mp hv).1⟩

theorem mem_setKey {α : Type} {l : List (Nat × α)} {k : Nat} {v : α} {p : Nat × α}
    (hp : p ∈ setKey l k v) : p ∈ l ∨ p = (k, v) := by
  induction l with
  | nil =>
    simp only [setKey, List.mem_singleton] at hp
    exact Or.inr hp
  | cons hd tl ih =>
    obtain ⟨k0, w⟩ := hd
    simp only [setKey] at hp
    split at hp
    · rcases List.mem_cons.mp hp with h | h
      · exact Or.inr h
      · exact Or.inl (List.mem_cons_of_mem _ h)
    · rcases List.mem_cons.mp hp with h | h
      · exact Or.inl (h ▸ List.mem_cons_self _ _)
      · rcases ih h with h' | h'
        · exact Or.inl (List.mem_cons_of_mem _ h')
        · exact Or.inr h'

theorem containsKey_setKey {α : Type} {l : List (Nat × α)} {k a : Nat} {v : α}
    (h : containsKey (setKey l k v) a = true) :
    a = k ∨ containsKey l a = true := by
  obtain ⟨w, hw⟩ := containsKey_iff.mp h
  rcases mem_setKey hw with h' | h'
  · exact Or.inr (containsKey_iff.mpr ⟨w, h'⟩)
  · cases h'
    exact Or.inl rfl

theorem length_setKey_le {α : Type} (l : List (Nat × α)) (k : Nat) (v : α) :
    (setKey l k v).length ≤ l.length + 1 := by
  induction l with
  | nil => simp [setKey]
  | cons hd tl ih =>
    obtain ⟨k0, w⟩ := hd
    simp only [setKey]
    split
    · simp
    · simpa using Nat.succ_le_succ ih

theorem noDupKeys_eraseKey {α : Type} {l : List (Nat × α)} (k : Nat)
    (h : NoDupKeys l) : NoDupKeys (eraseKey l k) :=
  List.Pairwise.sublist (eraseKey_sublist l k) h

theorem noDupKeys_filter {α : Type} {l : List (Nat × α)} (f : Nat × α → Bool)
    (h : NoDupKeys l) : NoDupKeys (l.filter f) :=
  h.filter f

theorem noDupKeys_setKey {α : Type} {l : List (Nat × α)} {k : Nat} {v : α}
    (h : NoDupKeys l) : NoDupKeys (setKey l k v) := by
  induction l with
  | nil => simp [NoDupKeys, setKey]
  | cons hd tl ih =>
    obtain ⟨k0, w⟩ := hd
    obtain ⟨hhd, htl⟩ := List.pairwise_cons.mp h
    simp only [setKey]
    split
    · rename_i heq
      refine List.pairwise_cons.mpr ⟨?_, htl⟩
      intro q hq
      exact heq ▸ hhd q hq
    · rename_i hne
      refine List.pairwise_cons.mpr ⟨?_, ih htl⟩
      intro q hq
      rcases mem_setKey hq with h' | h'
      · exact hhd q h'
      · cases h'
        exact hne

theorem containsKey_cons {α : Type} (k : Nat) (v : α) (l : List (Nat × α)) (x : Nat) :
    containsKey ((k, v) :: l) x = if k = x then true else containsKey l x := by
  simp only [containsKey, lookupKey]
  split <;> rfl

theorem containsKey_of_lookupKey_none {α : Type} {l : List (Nat × α)} {a : Nat}
    (h : lookupKey l a = none) : containsKey l a = false := by
  simp [containsKey, h]

theorem not_mem_of_lookupKey_none {α : Type} {l : List (Nat × α)} {a : Nat}
    (h : lookupKey l a = none) : ∀ v, (a, v) ∉ l :=
  containsKey_eq_false_iff.mp (containsKey_of_lookupKey_none h)

theorem containsKey_eraseKey_of_false {α : Type} {l : List (Nat × α)} {k a : Nat}
    (h : containsKey l a = false) : containsKey (eraseKey l k) a = false := by
  cases hc : containsKey (eraseKey l k) a
  · rfl
  · have := containsKey_of_eraseKey hc
    simp [this] at h

theorem containsKey_filter_of_false {α : Type} {l : List (Nat × α)} {f : Nat × α → Bool}
    {a : Nat} (h : containsKey l a = false) : containsKey (l.filter f) a = false := by
  cases hc : containsKey (l.filter f) a
  · rfl
  · have := containsKey_filter hc
    simp [this] at h

theorem containsKey_eraseKey_self {α : Type} {l : List (Nat × α)} {k : Nat}
    (h : NoDupKeys l) : containsKey (eraseKey l k) k = false := by
  induction l with
  | nil => rfl
  | cons hd tl ih =>
    obtain ⟨k0, v⟩ := hd
    obtain ⟨hhd, htl⟩ := List.pairwise_cons.mp h
    simp only [eraseKey]
    split
    · rename_i heq
      subst heq
      apply containsKey_eq_false_iff.mpr
      intro w hw
      exact hhd _ hw rfl
    · rename_i hne
      rw [containsKey_cons, if_neg hne]
      exact ih htl

theorem mem_emitBan {fw : AttackFirewall} {a : Nat} {e : Event}
    (h : e ∈ emitBan fw a) : e = Event.banCb a := by
  unfold emitBan at h
  split at h <;> simp_all

theorem mem_emitUnban {fw : AttackFirewall} {a : Nat} {e : Event}
    (h : e ∈ emitUnban fw a) : e = Event.unbanCb a := by
  unfold emitUnban at h
  split at h <;> simp_all

/-! Helper lemmas about single `ReceivePacket` calls. -/

theorem receive_exempt (fw : AttackFirewall) (a p : Nat) (t : Int)
    (h : (IsSpecialAddress a || fw.whitelist.contains a) = true) :
    fw.ReceivePacket a p t = ⟨BanStatus.Unbanned, fw, []⟩ := by
  unfold AttackFirewall.ReceivePacket
  rw [if_pos h]

theorem receive_whitelist_monotone (fw : AttackFirewall) (a p : Nat) (t : Int) (x : Nat)
    (h : fw.whitelist.contains x = true) :
    (fw.ReceivePacket a p t).fw.whitelist.contains x = true := by
  unfold AttackFirewall.ReceivePacket
  dsimp only
  split
  · exact h
  · split
    · split
      · exact h
      · exact h
    · split
      · split
        · simp only [List.contains_cons, h, Bool.or_true]
        · split
          · exact h
          · exact h
      · split
        · exact h
        · split
          · exact h
          · split
            · exact h
            · exact h

theorem receive_events_addr (fw : AttackFirewall) (a p : Nat) (t : Int) :
    ∀ e ∈ (fw.ReceivePacket a p t).events, e.addr = a := by
  unfold AttackFirewall.ReceivePacket
  dsimp only
  split
  · intro e he
    cases he
  · split
    · split
      · intro e he
        rcases List.mem_cons.mp he with rfl | h2
        · rfl
        · obtain rfl := mem_emitUnban h2
          rfl
      · intro e he
        cases he
    · split
      · split
        · intro e he
          simp only [List.mem_singleton] at he
          subst he
          rfl
        · split
          · intro e he
            rcases List.mem_append.mp he with h2 | h2
            · obtain rfl := mem_emitBan h2
              rfl
            · simp only [List.mem_singleton] at h2
              subst h2
              rfl
          · intro e he
            simp only [List.mem_singleton] at he
            subst he
            rfl
      · split
        · intro e he
          simp only [List.mem_singleton] at he
          subst he
          rfl
        · split
          · intro e he
            rcases List.mem_cons.mp he with rfl | h2
            · rfl
            · obtain rfl := mem_emitBan h2
              rfl
          · split
            · intro e he
              rcases List.mem_append.mp he with h2 | h2
              · obtain rfl := mem_emitBan h2
                rfl
              · simp only [List.mem_singleton] at h2
                subst h2
                rfl
            · intro e he
              cases he

theorem receive_preserves_inv (fw : AttackFirewall) (a p : Nat) (t : Int)
    (h : EngineInv fw) : EngineInv (fw.ReceivePacket a p t).fw := by
  obtain ⟨hnt, hnb, hdisj, hwb⟩ := h
  unfold AttackFirewall.ReceivePacket
  dsimp only
  split
  · exact ⟨hnt, hnb, hdisj, hwb⟩
  · rename_i hexempt
    rw [Bool.or_eq_true, not_or, Bool.not_eq_true, Bool.not_eq_true] at hexempt
    obtain ⟨hspec, hwl⟩ := hexempt
    split
    · rename_i ban hban
      split
      · -- expired ban removed
        refine ⟨hnt, noDupKeys_eraseKey a hnb, ?_, ?_⟩
        · intro x hx
          exact containsKey_eraseKey_of_false (hdisj x hx)
        · intro x hx
          exact containsKey_eraseKey_of_false (hwb x hx)
      · exact ⟨hnt, hnb, hdisj, hwb⟩
    · rename_i hban
      split
      · rename_i hst
        split
        · -- exceptions: whitelist grows
          refine ⟨hnt, hnb, hdisj, ?_⟩
          intro x hx
          rw [List.contains_cons] at hx
          rcases Bool.or_eq_true _ _ |>.mp hx with hxa | hxw
          · have : x = a := by simpa using hxa
            subst this
            exact containsKey_of_lookupKey_none hban
          · exact hwb x hxw
        · split
          · -- blacklist ban inserted, first sighting
            refine ⟨hnt, ?_, ?_, ?_⟩
            · refine List.pairwise_cons.mpr ⟨?_, hnb⟩
              intro q hq
              obtain ⟨q1, q2⟩ := q
              intro hqa
              cases hqa
              exact not_mem_of_lookupKey_none hban q2 hq
            · intro x hx
              rw [containsKey_cons]
              split
              · rename_i hax
                subst hax
                rw [containsKey_of_lookupKey_none hst] at hx
                cases hx
              · exact hdisj x hx
            · intro x hx
              rw [containsKey_cons]
              split
              · rename_i hax
                subst hax
                rw [hwl] at hx
                cases hx
              · exact hwb x hx
          · -- first packet tracked
            refine ⟨?_, hnb, ?_, hwb⟩
            · refine List.pairwise_cons.mpr ⟨?_, hnt⟩
              intro q hq
              obtain ⟨q1, q2⟩ := q
              intro hqa
              cases hqa
              exact not_mem_of_lookupKey_none hst q2 hq
            · intro x hx
              rw [containsKey_cons] at hx
              split at hx
              · rename_i hax
                subst hax
                exact containsKey_of_lookupKey_none hban
              · exact hdisj x hx
      · rename_i st hst
        split
        · -- reappearance reset
          refine ⟨noDupKeys_setKey hnt, hnb, ?_, hwb⟩
          intro x hx
          rcases containsKey_setKey hx with rfl | hx'
          · exact containsKey_of_lookupKey_none hban
          · exact hdisj x hx'
        · split
          · -- multiport ban
            refine ⟨noDupKeys_eraseKey a hnt, ?_, ?_, ?_⟩
            · refine List.pairwise_cons.mpr ⟨?_, hnb⟩
              intro q hq
              obtain ⟨q1, q2⟩ := q
              intro hqa
              cases hqa
              exact not_mem_of_lookupKey_none hban q2 hq
            · intro x hx
              rw [containsKey_cons]
              split
              · rename_i hax
                subst hax
                rw [containsKey_eraseKey_self hnt] at hx
                cases hx
              · exact hdisj x (containsKey_of_eraseKey hx)
            · intro x hx
              rw [containsKey_cons]
              split
              · rename_i hax
                subst hax
                rw [hwl] at hx
                cases hx
              · exact hwb x hx
          · split
            · -- flood ban
              refine ⟨noDupKeys_eraseKey a hnt, ?_, ?_, ?_⟩
              · refine List.pairwise_cons.mpr ⟨?_, hnb⟩
                intro q hq
                obtain ⟨q1, q2⟩ := q
                intro hqa
                cases hqa
                exact not_mem_of_lookupKey_none hban q2 hq
              · intro x hx
                rw [containsKey_cons]
                split
                · rename_i hax
                  subst hax
                  rw [containsKey_eraseKey_self hnt] at hx
                  cases hx
                · exact hdisj x (containsKey_of_eraseKey hx)
              · intro x hx
                rw [containsKey_cons]
                split
                · rename_i hax
                  subst hax
                  rw [hwl] at hx
                  cases hx
                · exact hwb x hx
            · -- normal update
              refine ⟨noDupKeys_setKey hnt, hnb, ?_, hwb⟩
              intro x hx
              rcases containsKey_setKey hx with rfl | hx'
              · exact containsKey_of_lookupKey_none hban
              · exact hdisj x hx'

theorem purge_preserves_inv (fw : AttackFirewall) (t : Int)
    (h : EngineInv fw) : EngineInv (fw.ClearOldEntries t).1 := by
  obtain ⟨hnt, hnb, hdisj, hwb⟩ := h
  unfold AttackFirewall.ClearOldEntries
  split
  · exact ⟨hnt, hnb, hdisj, hwb⟩
  · refine ⟨noDupKeys_filter _ hnt, noDupKeys_filter _ hnb, ?_, ?_⟩
    · intro x hx
      exact containsKey_filter_of_false (hdisj x (containsKey_filter hx))
    · intro x hx
      exact containsKey_filter_of_false (hwb x hx)

theorem addWhitelist_preserves_inv (fw : AttackFirewall) (a : Nat)
    (h : EngineInv fw) (ha : containsKey fw.bans a = false) :
    EngineInv (fw.AddWhitelist a) := by
  obtain ⟨hnt, hnb, hdisj, hwb⟩ := h
  refine ⟨hnt, hnb, hdisj, ?_⟩
  intro x hx
  unfold AttackFirewall.AddWhitelist at hx
  dsimp only at hx
  split at hx
  · exact hwb x hx
  · rw [List.contains_cons] at hx
    rcases Bool.or_eq_true _ _ |>.mp hx with hxa | hxw
    · have : x = a := by simpa using hxa
      subst this
      exact ha
    · exact hwb x hxw

theorem setBlacklist_preserves_inv (fw : AttackFirewall) (bl ex : Option (Nat → Bool))
    (h : EngineInv fw) : EngineInv (fw.SetBlacklist bl ex) := by
  obtain ⟨hnt, hnb, hdisj, hwb⟩ := h
  exact ⟨hnt, hnb, hdisj, hwb⟩

theorem receive_preserves_portsBounded (fw : AttackFirewall) (a p : Nat) (t : Int)
    (h : PortsBounded fw) : PortsBounded (fw.ReceivePacket a p t).fw := by
  unfold AttackFirewall.ReceivePacket
  dsimp only
  split
  · exact h
  · split
    · split
      · exact h
      · exact h
    · split
      · split
        · exact h
        · split
          · exact h
          · -- first packet: fresh statistics carry one port
            intro q hq
            rcases List.mem_cons.mp hq with rfl | hq'
            · simp [AddressStatistics.make, AddressStatistics.Reset, MAX_PORTS]
            · exact h q hq'
      · rename_i st hst
        split
        · -- reappearance: reset statistics carry one port
          intro q hq
          rcases mem_setKey hq with hq' | rfl
          · exact h q hq'
          · simp [AddressStatistics.Reset, MAX_PORTS]
        · split
          · -- multiport ban: entry erased
            intro q hq
            exact h q (List.Sublist.mem hq (eraseKey_sublist _ _))
          · split
            · -- flood ban: entry erased
              intro q hq
              exact h q (List.Sublist.mem hq (eraseKey_sublist _ _))
            · -- normal update: the guard bounds the purged map by MAX_PORTS,
              -- the insertion adds at most one entry
              rename_i hports hhit
              intro q hq
              rcases mem_setKey hq with hq' | rfl
              · exact h q hq'
              · have h1 : (st.RemoveOldPorts t).ports.length ≤ MAX_PORTS := by
                  omega
                have h2 := length_setKey_le (st.RemoveOldPorts t).ports p t
                simpa [AddressStatistics.CountPacket] using Nat.le_trans h2 (Nat.succ_le_succ h1)

theorem receive_setFlags (fw : AttackFirewall) (b u : Bool) (a p : Nat) (t : Int) :
    ((setFlags fw b u).ReceivePacket a p t).status = (fw.ReceivePacket a p t).status ∧
    ((setFlags fw b u).ReceivePacket a p t).fw = setFlags (fw.ReceivePacket a p t).fw b u := by
  unfold AttackFirewall.ReceivePacket setFlags
  dsimp only
  split
  · exact ⟨rfl, rfl⟩
  · split
    · split
      · exact ⟨rfl, rfl⟩
      · exact ⟨rfl, rfl⟩
    · split
      · split
        · exact ⟨rfl, rfl⟩
        · split
          · exact ⟨rfl, rfl⟩
          · exact ⟨rfl, rfl⟩
      · split
        · exact ⟨rfl, rfl⟩
        · split
          · exact ⟨rfl, rfl⟩
          · split
            · exact ⟨rfl, rfl⟩
            · exact ⟨rfl, rfl⟩

theorem purge_setFlags (fw : AttackFirewall) (b u : Bool) (t : Int) :
    ((setFlags fw b u).ClearOldEntries t).1 = setFlags (fw.ClearOldEntries t).1 b u := by
  unfold AttackFirewall.ClearOldEntries setFlags
  dsimp only
  split
  · rfl
  · rfl

theorem applyOp_setFlags (fw : AttackFirewall) (b u : Bool) (op : Op) :
    (applyOp (setFlags fw b u) op).1 = (applyOp fw op).1 ∧
    (applyOp (setFlags fw b u) op).2.1 = setFlags (applyOp fw op).2.1 b u := by
  cases op with
  | recv a p t =>
    obtain ⟨h1, h2⟩ := receive_setFlags fw b u a p t
    exact ⟨by simpa [applyOp] using h1, by simpa [applyOp] using h2⟩
  | purge t =>
    exact ⟨rfl, by simpa [applyOp] using purge_setFlags fw b u t⟩
  | addWl a =>
    refine ⟨rfl, ?_⟩
    simp only [applyOp, AttackFirewall.AddWhitelist, setFlags]
  | setBl bl ex =>
    exact ⟨rfl, rfl⟩

theorem runOps_setFlags (fw : AttackFirewall) (b u : Bool) (ops : List Op) :
    (runOps (setFlags fw b u) ops).1 = (runOps fw ops).1 ∧
    (runOps (setFlags fw b u) ops).2.1 = setFlags (runOps fw ops).2.1 b u := by
  induction ops generalizing fw with
  | nil => exact ⟨rfl, rfl⟩
  | cons op rest ih =>
    obtain ⟨h1, h2⟩ := applyOp_setFlags fw b u op
    obtain ⟨ih1, ih2⟩ := ih (applyOp fw op).2.1
    simp only [runOps]
    rw [h1, h2]
    exact ⟨by rw [ih1], by rw [ih2]⟩

theorem count_emitBan_banCb (fw : AttackFirewall) (a : Nat) :
    (emitBan fw a).count (Event.banCb a) = if fw.ban_registered then 1 else 0 := by
  unfold emitBan
  split <;> simp

theorem count_emitBan_unbanCb (fw : AttackFirewall) (a x : Nat) :
    (emitBan fw a).count (Event.unbanCb x) = 0 := by
  unfold emitBan
  split <;> simp

theorem count_emitUnban_unbanCb (fw : AttackFirewall) (a : Nat) :
    (emitUnban fw a).count (Event.unbanCb a) = if fw.unban_registered then 1 else 0 := by
  unfold emitUnban
  split <;> simp

theorem count_emitUnban_banCb (fw : AttackFirewall) (a x : Nat) :
    (emitUnban fw a).count (Event.banCb x) = 0 := by
  unfold emitUnban
  split <;> simp

theorem receive_banCb_count (fw : AttackFirewall) (a p : Nat) (t : Int) :
    (fw.ReceivePacket a p t).events.count (Event.banCb a) =
      if (fw.ReceivePacket a p t).status = BanStatus.Ban then
        (if fw.ban_registered then 1 else 0) else 0 := by
  unfold AttackFirewall.ReceivePacket
  dsimp only
  split
  · simp
  · split
    · split
      · simp [count_emitUnban_banCb]
      · simp
    · split
      · split
        · simp
        · split
          · simp [count_emitBan_banCb]
          · simp
      · split
        · simp
        · split
          · simp [count_emitBan_banCb]
          · split
            · simp [count_emitBan_banCb]
            · simp

theorem receive_unbanCb_count (fw : AttackFirewall) (a p : Nat) (t : Int) :
    (fw.ReceivePacket a p t).events.count (Event.unbanCb a) =
      if (fw.ReceivePacket a p t).status = BanStatus.Unban then
        (if fw.unban_registered then 1 else 0) else 0 := by
  unfold AttackFirewall.ReceivePacket
  dsimp only
  split
  · simp
  · split
    · split
      · simp [count_emitUnban_unbanCb]
      · simp
    · split
      · split
        · simp
        · split
          · simp [count_emitBan_unbanCb]
          · simp
      · split
        · simp
        · split
          · simp [count_emitBan_unbanCb]
          · split
            · simp [count_emitBan_unbanCb]
            · simp

theorem purgeBanEvents_count_unbanCb (now : Int) (l : List (Nat × BanInfo)) (a : Nat)
    (h : NoDupKeys l) :
    (purgeBanEvents true now l).count (Event.unbanCb a) =
      if containsKey l a = true then 1 else 0 := by
  induction l with
  | nil => simp [purgeBanEvents, containsKey, lookupKey]
  | cons hd tl ih =>
    obtain ⟨k, b⟩ := hd
    obtain ⟨hhd, htl⟩ := List.pairwise_cons.mp h
    simp only [purgeBanEvents, List.count_append, if_true]
    rw [containsKey_cons, ih htl]
    have hlog : (if b.TimedOut now then [Event.log Tag.UnbanTag k] else []).count
        (Event.unbanCb a) = 0 := by
      split <;> simp
    rw [hlog]
    by_cases hk : k = a
    · subst hk
      have hct : containsKey tl k = false :=
        containsKey_eq_false_iff.mpr (fun v hv => (hhd _ hv rfl).elim)
      simp [hct]
    · have hne : (Event.unbanCb k == Event.unbanCb a) = false := by simp [hk]
      simp [hk, List.count_cons, hne]

theorem AddressStatistics.ext' {a b : AddressStatistics}
    (h1 : a.times = b.times) (h2 : a.packet_count = b.packet_count)
    (h3 : a.last_time = b.last_time) (h4 : a.ports = b.ports) : a = b := by
  cases a; cases b; simp_all

theorem make_eq_floodStats (port : Nat) (T : Int) :
    AddressStatistics.make port T = floodStats port T 1 := by
  unfold AddressStatistics.make AddressStatistics.Reset floodStats
  refine AddressStatistics.ext' ?_ rfl rfl rfl
  funext i
  by_cases h : i = 0
  · subst h; simp
  · simp [h, Nat.lt_one_iff]

theorem flood_first (t0 : Int) (addr port : Nat) (T : Int)
    (hsp : IsSpecialAddress addr = false) :
    (mkFirewall true true t0).ReceivePacket addr port T =
      ⟨BanStatus.Unbanned, floodFw t0 addr port T 1, [Event.log Tag.FirstPacket addr]⟩ := by
  unfold AttackFirewall.ReceivePacket
  simp [mkFirewall, hsp, lookupKey, matcherContains, floodFw, make_eq_floodStats]

theorem flood_step (t0 : Int) (addr port : Nat) (T : Int) (n : Nat)
    (hsp : IsSpecialAddress addr = false) (h1 : 1 ≤ n) (h2 : n < MAX_PACKETS) :
    (floodFw t0 addr port T n).ReceivePacket addr port T =
      ⟨BanStatus.Unbanned, floodFw t0 addr port T (n + 1), []⟩ := by
  have h2' : n < 80 := h2
  have hto : (floodStats port T n).TimedOut T TIMEOUT = false := by
    unfold AddressStatistics.TimedOut floodStats
    dsimp only
    rw [if_pos (show n - 1 < n by omega)]
    simp [TIMEOUT]
  have hrm : (floodStats port T n).RemoveOldPorts T = floodStats port T n := by
    unfold AddressStatistics.RemoveOldPorts floodStats
    dsimp only
    norm_num [TIMEOUT]
  have hlen : (floodStats port T n).ports.length = 1 := rfl
  have hcp : ({ floodStats port T n with
      ports := [(port, T)] }).CountPacket T =
      floodStats port T (n + 1) := by
    unfold AddressStatistics.CountPacket floodStats
    dsimp only
    rw [show n - 1 + 1 = n by omega]
    rw [if_neg (by simp only [MAX_PACKETS]; omega)]
    refine AddressStatistics.ext' ?_ rfl (by dsimp only; omega) rfl
    funext i
    by_cases h : i = n
    · subst h; simp
    · simp only [if_neg h]
      by_cases h' : i < n
      · rw [if_pos h', if_pos (by omega)]
      · rw [if_neg h', if_neg (by omega)]
  have hhl : (floodStats port T (n + 1)).HitLimit = false := by
    unfold AddressStatistics.HitLimit floodStats
    dsimp only
    rw [Bool.and_eq_false_iff]
    left
    simp only [MAX_PACKETS, decide_eq_false_iff_not]
    omega
  unfold AttackFirewall.ReceivePacket
  simp [floodFw, mkFirewall, hsp, lookupKey, matcherContains, hto, hrm, hcp, hhl,
    setKey, MAX_PORTS, hlen]

theorem flood_run (t0 : Int) (addr port : Nat) (T : Int)
    (hsp : IsSpecialAddress addr = false) :
    ∀ (k n : Nat), 1 ≤ n → n + k ≤ MAX_PACKETS →
      runReceives (floodFw t0 addr port T n) (List.replicate k (addr, port, T)) =
        (List.replicate k BanStatus.Unbanned, floodFw t0 addr port T (n + k), []) := by
  intro k
  induction k with
  | zero =>
    intro n h1 h2
    simp [runReceives]
  | succ k ih =>
    intro n h1 h2
    have h2' : n + (k + 1) ≤ 80 := h2
    rw [List.replicate_succ]
    simp only [runReceives]
    rw [flood_step t0 addr port T n hsp h1 (by show n < 80; omega)]
    dsimp only
    rw [ih (n + 1) (by omega) (by show n + 1 + k ≤ 80; omega)]
    have : n + 1 + k = n + (k + 1) := by omega
    rw [this]
    simp [List.replicate_succ]

theorem flood_last (t0 : Int) (addr port : Nat) (T : Int)
    (hsp : IsSpecialAddress addr = false) :
    (floodFw t0 addr port T MAX_PACKETS).ReceivePacket addr port T =
      ⟨BanStatus.Ban,
        { mkFirewall true true t0 with bans := [(addr, BanInfo.make BAN_DURATION_FLOOD T)] },
        [Event.banCb addr, Event.log Tag.Flood addr]⟩ := by
  have hto : (floodStats port T MAX_PACKETS).TimedOut T TIMEOUT = false := by
    unfold AddressStatistics.TimedOut floodStats
    dsimp only
    rw [if_pos (by decide)]
    simp [TIMEOUT]
  have hrm : (floodStats port T MAX_PACKETS).RemoveOldPorts T =
      floodStats port T MAX_PACKETS := by
    unfold AddressStatistics.RemoveOldPorts floodStats
    dsimp only
    norm_num [TIMEOUT]
  have hlen : (floodStats port T MAX_PACKETS).ports.length = 1 := rfl
  have hcp : ({ floodStats port T MAX_PACKETS with ports := [(port, T)] }).CountPacket T =
      floodOverflowStats port T := by
    unfold AddressStatistics.CountPacket floodStats floodOverflowStats
    dsimp only
    rw [if_pos (by decide)]
    rfl
  have hhl : (floodOverflowStats port T).HitLimit = true := by
    unfold AddressStatistics.HitLimit floodOverflowStats floodStats
    norm_num [MAX_PACKETS, MAX_PACKET_FRAME]
  unfold AttackFirewall.ReceivePacket
  simp [floodFw, mkFirewall, hsp, lookupKey, matcherContains, hto, hrm, hcp, hhl,
    setKey, MAX_PORTS, hlen, emitBan, eraseKey]

theorem runReceives_cons (fw : AttackFirewall) (a p : Nat) (t : Int)
    (rest : List (Nat × Nat × Int)) :
    runReceives fw ((a, p, t) :: rest) =
      ((fw.ReceivePacket a p t).status :: (runReceives (fw.ReceivePacket a p t).fw rest).1,
       (runReceives (fw.ReceivePacket a p t).fw rest).2.1,
       (fw.ReceivePacket a p t).events ++ (runReceives (fw.ReceivePacket a p t).fw rest).2.2) :=
  rfl

theorem runReceives_append (fw : AttackFirewall) (xs ys : List (Nat × Nat × Int)) :
    runReceives fw (xs ++ ys) =
      ((runReceives fw xs).1 ++ (runReceives (runReceives fw xs).2.1 ys).1,
       (runReceives (runReceives fw xs).2.1 ys).2.1,
       (runReceives fw xs).2.2 ++ (runReceives (runReceives fw xs).2.1 ys).2.2) := by
  induction xs generalizing fw with
  | nil => simp [runReceives]
  | cons x rest ih =>
    obtain ⟨a, p, t⟩ := x
    simp only [List.cons_append, runReceives, List.append_eq]
    rw [ih]
    simp [List.append_assoc]

theorem flood_prefix_run (t0 : Int) (addr port : Nat) (T : Int)
    (hsp : IsSpecialAddress addr = false) :
    runReceives (mkFirewall true true t0) (List.replicate MAX_PACKETS (addr, port, T)) =
      (List.replicate MAX_PACKETS BanStatus.Unbanned, floodFw t0 addr port T MAX_PACKETS,
       [Event.log Tag.FirstPacket addr]) := by
  rw [show (MAX_PACKETS : Nat) = 79 + 1 from rfl, List.replicate_succ]
  rw [runReceives_cons]
  rw [flood_first t0 addr port T hsp]
  dsimp only
  rw [flood_run t0 addr port T hsp 79 1 (by omega) (by decide)]
  norm_num
  exact List.replicate_succ BanStatus.Unbanned 79 |>.symm

/-- Claim C3: from a fresh engine, a non-special address sending
MAX_PACKETS = 80 same-port packets in the same second is never banned, and
the 81st packet in that second returns `Ban` with a `Flood` log line. -/
theorem flood_full_run (t0 : Int) (addr port : Nat) (T : Int)
    (hsp : IsSpecialAddress addr = false) :
    runReceives (mkFirewall true true t0)
        (List.replicate MAX_PACKETS (addr, port, T) ++ [(addr, port, T)]) =
      (List.replicate MAX_PACKETS BanStatus.Unbanned ++ [BanStatus.Ban],
       { mkFirewall true true t0 with bans := [(addr, BanInfo.make BAN_DURATION_FLOOD T)] },
       [Event.log Tag.FirstPacket addr, Event.banCb addr, Event.log Tag.Flood addr]) := by
  rw [runReceives_append, flood_prefix_run t0 addr port T hsp]
  dsimp only
  rw [runReceives_cons, flood_last t0 addr port T hsp]
  simp [runReceives]

theorem exempt_no_banCb (a : Nat) (pkts : List (Nat × Nat × Int)) :
    ∀ fw : AttackFirewall, (IsSpecialAddress a || fw.whitelist.contains a) = true →
      Event.banCb a ∉ (runReceives fw pkts).2.2 := by
  induction pkts with
  | nil =>
    intro fw h hmem
    cases hmem
  | cons pkt rest ih =>
    obtain ⟨a', p', t'⟩ := pkt
    intro fw h hmem
    rw [runReceives_cons] at hmem
    rcases List.mem_append.mp hmem with hm | hm
    · by_cases haa : a' = a
      · subst haa
        rw [receive_exempt fw a' p' t' h] at hm
        cases hm
      · have hea := receive_events_addr fw a' p' t' _ hm
        exact haa (by simpa [Event.addr] using hea.symm)
    · refine ih (fw.ReceivePacket a' p' t').fw ?_ hm
      rcases Bool.or_eq_true _ _ |>.mp h with hs | hw
      · rw [hs]
        rfl
      · rw [receive_whitelist_monotone fw a' p' t' a hw]
        simp

theorem engineInv_mkFirewall (b u : Bool) (t0 : Int) : EngineInv (mkFirewall b u t0) := by
  refine ⟨?_, ?_, ?_, ?_⟩
  · exact List.Pairwise.nil
  · exact List.Pairwise.nil
  · intro x hx
    cases (containsKey_iff.mp hx).choose_spec
  · intro x hx
    simp [mkFirewall] at hx

/-- Claim C1, counterexample: from a fresh engine, packets from 1.2.3.4 on the four
distinct source ports 9000, 9001, 9002, 9003 at times 0, 1, 2, 3 all return
`Unbanned`: the call that introduces the fourth distinct port does NOT return
`Ban`, because `ReceivePacket` checks `ports.size() > MAX_PORTS` before
inserting the new port. -/
theorem multiport_fourth_call_not_ban :
    (runReceives (mkFirewall true true 0)
        [(0x01020304, 9000, 0), (0x01020304, 9001, 1),
         (0x01020304, 9002, 2), (0x01020304, 9003, 3)]).1 =
      [BanStatus.Unbanned, BanStatus.Unbanned, BanStatus.Unbanned, BanStatus.Unbanned] ∧
    (runReceives (mkFirewall true true 0)
        [(0x01020304, 9000, 0), (0x01020304, 9001, 1),
         (0x01020304, 9002, 2), (0x01020304, 9003, 3)]).1.getLast? ≠
      some BanStatus.Ban := by
  constructor
  · decide
  · decide

/-- Claim C1, amended: three distinct extra ports never cause a ban; after the
fourth distinct port has been recorded, the NEXT call (the fifth packet)
within TIMEOUT returns `Ban` with a `Multiport` log line and exactly one
`ban_cb` invocation. -/
theorem multiport_fifth_packet_bans :
    (runReceives (mkFirewall true true 0)
        [(0x01020304, 9000, 0), (0x01020304, 9001, 1), (0x01020304, 9002, 2),
         (0x01020304, 9003, 3), (0x01020304, 9000, 4)]).1 =
      [BanStatus.Unbanned, BanStatus.Unbanned, BanStatus.Unbanned,
       BanStatus.Unbanned, BanStatus.Ban] ∧
    (runReceives (mkFirewall true true 0)
        [(0x01020304, 9000, 0), (0x01020304, 9001, 1), (0x01020304, 9002, 2),
         (0x01020304, 9003, 3), (0x01020304, 9000, 4)]).2.2 =
      [Event.log Tag.FirstPacket 0x01020304, Event.log Tag.Multiport 0x01020304,
       Event.banCb 0x01020304] ∧
    containsKey (runReceives (mkFirewall true true 0)
        [(0x01020304, 9000, 0), (0x01020304, 9001, 1), (0x01020304, 9002, 2),
         (0x01020304, 9003, 3), (0x01020304, 9000, 4)]).2.1.bans 0x01020304 = true := by
  refine ⟨?_, ?_, ?_⟩
  · decide
  · decide
  · decide

/-- Claim C2, counterexample: after the fourth call of the port-scan scenario
returns, the tracked entry for 1.2.3.4 still holds 4 = MAX_PORTS + 1 ports:
the over-limit state survives the end of `receive_packet`. -/
theorem ports_size_four_after_return :
    ((lookupKey (runReceives (mkFirewall true true 0)
        [(0x01020304, 9000, 0), (0x01020304, 9001, 1),
         (0x01020304, 9002, 2), (0x01020304, 9003, 3)]).2.1.table 0x01020304).map
      (fun s => s.ports.length)) = some 4 ∧ MAX_PORTS < 4 := by
  constructor
  · decide
  · decide

/-- Claim C2, amended: the per-address `ports` map never exceeds MAX_PORTS + 1
entries at the end of `receive_packet`; the MAX_PORTS + 1 state is reachable
and persists until the next packet from that address. -/
theorem receive_ports_bounded (fw : AttackFirewall) (a p : Nat) (t : Int)
    (h : PortsBounded fw) : PortsBounded (fw.ReceivePacket a p t).fw :=
  receive_preserves_portsBounded fw a p t h

/-- Witness for claim C2. -/
theorem receive_ports_bounded_witness :
    PortsBounded ((mkFirewall true true 0).ReceivePacket 0x01020304 9000 0).fw :=
  receive_ports_bounded (mkFirewall true true 0) 0x01020304 9000 0
    (fun q hq => by cases hq)

/-- Witness for claim C3. -/
theorem flood_full_run_witness :
    IsSpecialAddress 0x01020304 = false ∧
    (runReceives (mkFirewall true true 0)
        (List.replicate MAX_PACKETS (0x01020304, 9000, 0) ++ [(0x01020304, 9000, 0)])).1 =
      List.replicate MAX_PACKETS BanStatus.Unbanned ++ [BanStatus.Ban] :=
  ⟨by decide, by rw [flood_full_run 0 0x01020304 9000 0 (by decide)]⟩

/-- Claim C4, amended: for a tracked, non-timed-out, non-exempt address that
survives the port-diversity check, `receive_packet` returns `Ban` exactly
when the updated ring is over-full and the oldest-to-newest span is STRICTLY
below MAX_PACKET_FRAME; equality with MAX_PACKET_FRAME does not ban. -/
theorem flood_ban_condition (fw : AttackFirewall) (addr port : Nat) (now : Int)
    (st st3 : AddressStatistics)
    (hsp : IsSpecialAddress addr = false)
    (hwl : fw.whitelist.contains addr = false)
    (hbans : lookupKey fw.bans addr = none)
    (htab : lookupKey fw.table addr = some st)
    (hto : st.TimedOut now TIMEOUT = false)
    (hports : ¬ (st.RemoveOldPorts now).ports.length > MAX_PORTS)
    (hst3 : st3 = ({ st.RemoveOldPorts now with
        ports := setKey (st.RemoveOldPorts now).ports port now }).CountPacket now) :
    ((fw.ReceivePacket addr port now).status =
      if st3.HitLimit then BanStatus.Ban else BanStatus.Unbanned) ∧
    (st3.HitLimit = true ↔ MAX_PACKETS < st3.packet_count ∧
      st3.times st3.last_time -
        st3.times (if st3.last_time + 1 ≥ MAX_PACKETS then 0 else st3.last_time + 1) <
        MAX_PACKET_FRAME) := by
  constructor
  · unfold AttackFirewall.ReceivePacket
    rw [hsp, Bool.false_or, hwl]
    rw [if_neg (by simp), hbans]
    rw [htab]
    dsimp only
    rw [hto]
    rw [if_neg (by simp : ¬(false = true))]
    rw [if_neg hports, ← hst3]
    split
    · rfl
    · rfl
  · simp [AddressStatistics.HitLimit, Bool.and_eq_true, decide_eq_true_eq]

/-- Claim C4, counterexample: a tracked address whose ring becomes full with an
oldest-to-newest span of exactly MAX_PACKET_FRAME (1 second) is NOT banned:
the packet is accepted (`Unbanned`) although the updated ring holds
MAX_PACKETS + 1 packets spanning exactly MAX_PACKET_FRAME, because
`HitLimit` requires the span to be STRICTLY below MAX_PACKET_FRAME. -/
theorem span_equal_frame_no_ban :
    (spanOneFw.ReceivePacket 0x01020304 9000 10).status = BanStatus.Unbanned ∧
    ((lookupKey (spanOneFw.ReceivePacket 0x01020304 9000 10).fw.table 0x01020304).map
      (fun s => (s.packet_count,
        s.times s.last_time -
          s.times (if s.last_time + 1 ≥ MAX_PACKETS then 0 else s.last_time + 1)))) =
      some (MAX_PACKETS + 1, MAX_PACKET_FRAME) := by
  constructor
  · decide
  · decide

/-- Witness for claim C4. -/
theorem flood_ban_condition_witness :
    (spanOneFw.ReceivePacket 0x01020304 9000 10).status =
      (if (({ spanOneStats.RemoveOldPorts 10 with
          ports := setKey (spanOneStats.RemoveOldPorts 10).ports 9000 10 }).CountPacket 10).HitLimit
       then BanStatus.Ban else BanStatus.Unbanned) :=
  (flood_ban_condition spanOneFw 0x01020304 9000 10 spanOneStats _
    (by decide) (by decide) rfl rfl (by decide) (by decide) rfl).1

/-- Claim C5, counterexample: `add_whitelist` of a currently banned address makes
the address simultaneously whitelisted and banned, violating the claimed
invariant that no whitelisted address is ever a key of `bans`. -/
theorem whitelist_banned_address_violates_I2 :
    ((runOps (mkFirewall true true 0)
        [Op.recv 0x01020304 9000 0, Op.recv 0x01020304 9001 1, Op.recv 0x01020304 9002 2,
         Op.recv 0x01020304 9003 3, Op.recv 0x01020304 9000 4,
         Op.addWl 0x01020304]).2.1.whitelist.contains 0x01020304 = true) ∧
    (containsKey (runOps (mkFirewall true true 0)
        [Op.recv 0x01020304 9000 0, Op.recv 0x01020304 9001 1, Op.recv 0x01020304 9002 2,
         Op.recv 0x01020304 9003 3, Op.recv 0x01020304 9000 4,
         Op.addWl 0x01020304]).2.1.bans 0x01020304 = true) := by
  constructor
  · decide
  · decide

/-- Claim C5, amended: `receive_packet`, `clear_old_entries` and `set_blacklist`
preserve both disjointness invariants (table/bans key sets disjoint, no
whitelisted address banned); `add_whitelist addr` preserves them provided
addr is not currently banned — without that proviso the invariant fails, as
the counterexample shows. -/
theorem engine_ops_preserve_disjointness (fw : AttackFirewall) (op : Op)
    (h : EngineInv fw)
    (hwl : ∀ x, op = Op.addWl x → containsKey fw.bans x = false) :
    EngineInv (applyOp fw op).2.1 := by
  cases op with
  | recv a p t => exact receive_preserves_inv fw a p t h
  | purge t => exact purge_preserves_inv fw t h
  | addWl a => exact addWhitelist_preserves_inv fw a h (hwl a rfl)
  | setBl bl ex => exact setBlacklist_preserves_inv fw bl ex h

/-- Witness for claim C5. -/
theorem engine_ops_preserve_disjointness_witness :
    EngineInv (applyOp (mkFirewall true true 0) (Op.recv 0x01020304 9000 0)).2.1 :=
  engine_ops_preserve_disjointness (mkFirewall true true 0) (Op.recv 0x01020304 9000 0)
    (engineInv_mkFirewall true true 0) (fun _ hx => nomatch hx)

/-- Claim C6, counterexample: a multiport ban is inserted at t = 4 (expiry 64);
the purges at t = 31 and t = 62 each invoke `unban_cb` for the still-active
ban, so two `unban_cb` calls are issued between insertion and removal while
the record is still present and only one `Ban` edge ever occurred. -/
theorem purge_unbans_active_ban_repeatedly :
    ((runOps (mkFirewall true true 0)
        [Op.recv 0x01020304 9000 0, Op.recv 0x01020304 9001 1, Op.recv 0x01020304 9002 2,
         Op.recv 0x01020304 9003 3, Op.recv 0x01020304 9000 4,
         Op.purge 31, Op.purge 62]).2.2.count (Event.unbanCb 0x01020304) = 2) ∧
    (containsKey (runOps (mkFirewall true true 0)
        [Op.recv 0x01020304 9000 0, Op.recv 0x01020304 9001 1, Op.recv 0x01020304 9002 2,
         Op.recv 0x01020304 9003 3, Op.recv 0x01020304 9000 4,
         Op.purge 31, Op.purge 62]).2.1.bans 0x01020304 = true) ∧
    ((runOps (mkFirewall true true 0)
        [Op.recv 0x01020304 9000 0, Op.recv 0x01020304 9001 1, Op.recv 0x01020304 9002 2,
         Op.recv 0x01020304 9003 3, Op.recv 0x01020304 9000 4,
         Op.purge 31, Op.purge 62]).1 =
      [some BanStatus.Unbanned, some BanStatus.Unbanned, some BanStatus.Unbanned,
       some BanStatus.Unbanned, some BanStatus.Ban, none, none]) := by
  refine ⟨?_, ?_, ?_⟩
  · decide
  · decide
  · decide

/-- Claim C6, amended: a `receive_packet` call emits exactly one `ban_cb` iff it
returns `Ban` (when the callback is registered) and exactly one `unban_cb`
iff it returns `Unban`; an active purge pass emits exactly one `unban_cb`
for EVERY currently banned address, expired or not — hence several
`unban_cb` calls can precede a record's removal. -/
theorem callback_emission_discipline :
    (∀ (fw : AttackFirewall) (a p : Nat) (t : Int),
      (fw.ReceivePacket a p t).events.count (Event.banCb a) =
        if (fw.ReceivePacket a p t).status = BanStatus.Ban then
          (if fw.ban_registered then 1 else 0) else 0) ∧
    (∀ (fw : AttackFirewall) (a p : Nat) (t : Int),
      (fw.ReceivePacket a p t).events.count (Event.unbanCb a) =
        if (fw.ReceivePacket a p t).status = BanStatus.Unban then
          (if fw.unban_registered then 1 else 0) else 0) ∧
    (∀ (fw : AttackFirewall) (t : Int) (a : Nat),
      NoDupKeys fw.bans → fw.unban_registered = true →
      PURGE_INTERVAL < t - fw.last_purge →
      (fw.ClearOldEntries t).2.count (Event.unbanCb a) =
        if containsKey fw.bans a = true then 1 else 0) := by
  refine ⟨receive_banCb_count, receive_unbanCb_count, ?_⟩
  intro fw t a hnd hreg hact
  have hact' : (30 : Int) < t - fw.last_purge := hact
  unfold AttackFirewall.ClearOldEntries
  rw [if_neg (by simp only [PURGE_INTERVAL]; omega)]
  dsimp only
  rw [hreg]
  exact purgeBanEvents_count_unbanCb t fw.bans a hnd

/-- Witness for claim C6. -/
theorem callback_emission_discipline_witness :
    (AttackFirewall.ClearOldEntries
        { table := [], bans := [(0x01020304, BanInfo.make 60 4)], whitelist := [],
          last_purge := 0, ban_registered := true, unban_registered := true,
          blacklist := none, exceptions := none } 40).2.count
      (Event.unbanCb 0x01020304) = 1 := by
  rw [callback_emission_discipline.2.2
    { table := [], bans := [(0x01020304, BanInfo.make 60 4)], whitelist := [],
      last_purge := 0, ban_registered := true, unban_registered := true,
      blacklist := none, exceptions := none } 40 0x01020304
    (by simp [NoDupKeys]) rfl (by decide)]
  decide

/-- Claim C7: a packet from a banned, non-special, non-whitelisted address removes
the record, invokes `unban_cb` exactly once and returns `Unban` when the
ban has expired (`now >= expiry`); before expiry it returns `Banned` with no
mutation and no callback. -/
theorem banned_packet_expiry (fw : AttackFirewall) (addr port : Nat) (now : Int)
    (b : BanInfo)
    (hsp : IsSpecialAddress addr = false)
    (hwl : fw.whitelist.contains addr = false)
    (hb : lookupKey fw.bans addr = some b)
    (hreg : fw.unban_registered = true) :
    (b.expiry ≤ now →
      fw.ReceivePacket addr port now =
        ⟨BanStatus.Unban, { fw with bans := eraseKey fw.bans addr },
          [Event.log Tag.UnbanTag addr, Event.unbanCb addr]⟩) ∧
    (now < b.expiry →
      fw.ReceivePacket addr port now = ⟨BanStatus.Banned, fw, []⟩) := by
  unfold AttackFirewall.ReceivePacket
  rw [hsp, Bool.false_or, hwl]
  rw [if_neg (by simp), hb]
  dsimp only
  constructor
  · intro h
    rw [if_pos (show b.TimedOut now = true by simp [BanInfo.TimedOut]; omega)]
    simp [emitUnban, hreg]
  · intro h
    rw [if_neg (show ¬ b.TimedOut now = true by simp [BanInfo.TimedOut]; omega)]

/-- Witness for claim C7. -/
theorem banned_packet_expiry_witness :
    AttackFirewall.ReceivePacket
        { table := [], bans := [(0x01020304, BanInfo.make 60 4)], whitelist := [],
          last_purge := 0, ban_registered := true, unban_registered := true,
          blacklist := none, exceptions := none } 0x01020304 9000 64 =
      ⟨BanStatus.Unban,
        { table := [], bans := eraseKey [(0x01020304, BanInfo.make 60 4)] 0x01020304,
          whitelist := [], last_purge := 0, ban_registered := true,
          unban_registered := true, blacklist := none, exceptions := none },
        [Event.log Tag.UnbanTag 0x01020304, Event.unbanCb 0x01020304]⟩ :=
  (banned_packet_expiry
    { table := [], bans := [(0x01020304, BanInfo.make 60 4)], whitelist := [],
      last_purge := 0, ban_registered := true, unban_registered := true,
      blacklist := none, exceptions := none } 0x01020304 9000 64 (BanInfo.make 60 4)
    (by decide) rfl rfl rfl).1 (by decide)

/-- Claim C8: for a special or initially whitelisted address, every
`receive_packet` call returns `Unbanned` with no mutation and no events, and
no sequence of `receive_packet` calls (from any mix of sources) ever invokes
`ban_cb` for that address. -/
theorem exempt_never_banned (fw : AttackFirewall) (a : Nat)
    (h : (IsSpecialAddress a || fw.whitelist.contains a) = true) :
    (∀ (p : Nat) (t : Int), fw.ReceivePacket a p t = ⟨BanStatus.Unbanned, fw, []⟩) ∧
    (∀ pkts : List (Nat × Nat × Int), Event.banCb a ∉ (runReceives fw pkts).2.2) :=
  ⟨fun p t => receive_exempt fw a p t h, fun pkts => exempt_no_banCb a pkts fw h⟩

/-- Witness for claim C8. -/
theorem exempt_never_banned_witness :
    ((mkFirewall true true 0).ReceivePacket 0x7F000001 9000 0 =
      ⟨BanStatus.Unbanned, mkFirewall true true 0, []⟩) ∧
    Event.banCb 0x7F000001 ∉ (runReceives (mkFirewall true true 0)
      [(0x7F000001, 9000, 0), (0x01020304, 9001, 1)]).2.2 :=
  ⟨(exempt_never_banned (mkFirewall true true 0) 0x7F000001 (by decide)).1 9000 0,
   (exempt_never_banned (mkFirewall true true 0) 0x7F000001 (by decide)).2
     [(0x7F000001, 9000, 0), (0x01020304, 9001, 1)]⟩

/-- Claim C9: the ring-buffer cursor produced by the constructor, `Reset` or
`CountPacket` always lies strictly below MAX_PACKETS, and the oldest-slot
index computed by `HitLimit` also stays in bounds. -/
theorem ring_cursor_in_bounds :
    (∀ (port : Nat) (now : Int), CursorInBounds (AddressStatistics.make port now)) ∧
    (∀ (s : AddressStatistics) (port : Nat) (now : Int),
      CursorInBounds (s.Reset port now)) ∧
    (∀ (s : AddressStatistics) (now : Int),
      CursorInBounds s → CursorInBounds (s.CountPacket now)) ∧
    (∀ s : AddressStatistics, CursorInBounds s →
      (if s.last_time + 1 ≥ MAX_PACKETS then 0 else s.last_time + 1) < MAX_PACKETS) := by
  refine ⟨?_, ?_, ?_, ?_⟩
  · intro port now
    simp [CursorInBounds, AddressStatistics.make, AddressStatistics.Reset, MAX_PACKETS]
  · intro s port now
    simp [CursorInBounds, AddressStatistics.Reset, MAX_PACKETS]
  · intro s now h
    unfold CursorInBounds AddressStatistics.CountPacket
    dsimp only
    split
    · simp [MAX_PACKETS]
    · rename_i hn
      simp only [MAX_PACKETS, ge_iff_le, not_le] at hn
      simpa [MAX_PACKETS] using hn
  · intro s h
    split
    · simp [MAX_PACKETS]
    · rename_i hn
      simp only [MAX_PACKETS, ge_iff_le, not_le] at hn
      simpa [MAX_PACKETS] using hn

/-- Witness for claim C9. -/
theorem ring_cursor_in_bounds_witness :
    CursorInBounds ((AddressStatistics.make 9000 0).CountPacket 1) :=
  ring_cursor_in_bounds.2.2.1 (AddressStatistics.make 9000 0) 1
    (ring_cursor_in_bounds.1 9000 0)

/-- Claim C10: registering or omitting the ban/unban callbacks changes neither the
returned statuses nor the resulting table, bans or whitelist over any
sequence of engine operations. -/
theorem callbacks_unobservable_in_state (fw : AttackFirewall) (b u : Bool)
    (ops : List Op) :
    (runOps (setFlags fw b u) ops).1 = (runOps fw ops).1 ∧
    (runOps (setFlags fw b u) ops).2.1.table = (runOps fw ops).2.1.table ∧
    (runOps (setFlags fw b u) ops).2.1.bans = (runOps fw ops).2.1.bans ∧
    (runOps (setFlags fw b u) ops).2.1.whitelist = (runOps fw ops).2.1.whitelist := by
  obtain ⟨h1, h2⟩ := runOps_setFlags fw b u ops
  exact ⟨h1, by rw [h2]; rfl, by rw [h2]; rfl, by rw [h2]; rfl⟩
